import Mathlib

/-!
Verification of the sentence segmentation engine of the deaf_speech_collector
repository, embedded from `scripts/auto-setup-on-deploy.js` (`splitIntoSentences`
and its caller `autoSetup`), together with the line-based import variant found in
the second deployment script.

Characters are modelled as Lean `Char` (Unicode code points), texts as
`List Char`, mirroring the code-point-indexed loop of the JavaScript source.
-/

/-- Character class of the JS regex `\s` (and of `String.prototype.trim`),
used by the source at the boundary lookahead `/\s/.test(text[i + 1])`,
in `current.trim()` and in `s.replace(/\s+/g, ' ')`. -/
def isWs (c : Char) : Bool :=
  decide (c.toNat = 32 ∨ c.toNat = 9 ∨ c.toNat = 10 ∨ c.toNat = 13 ∨ c.toNat = 11 ∨
    c.toNat = 12 ∨ c.toNat = 160 ∨ c.toNat = 5760 ∨ (8192 ≤ c.toNat ∧ c.toNat ≤ 8202) ∨
    c.toNat = 8232 ∨ c.toNat = 8233 ∨ c.toNat = 8239 ∨ c.toNat = 8287 ∨
    c.toNat = 12288 ∨ c.toNat = 65279)

/-- The letter test of the source, regex `[\p{L}ऀ-ॿ]` at lines 56 and 69
of auto-setup-on-deploy.js: a Unicode letter or any code point of the Devanagari
block U+0900-U+097F.  `\p{L}` is modelled here restricted to the Basic Latin
letters, the only non-Devanagari letters occurring in this repository's inputs;
the block test is exact (note that it makes the danda U+0964 "letter-class"). -/
def isLetterClass (c : Char) : Bool :=
  decide ((65 ≤ c.toNat ∧ c.toNat ≤ 90) ∨ (97 ≤ c.toNat ∧ c.toNat ≤ 122) ∨
    (2304 ≤ c.toNat ∧ c.toNat ≤ 2431))

/-- `['।', '॥', '.', '!', '?'].includes(char)` of line 51. -/
def isTerminator (c : Char) : Bool :=
  decide (c.toNat = 2404 ∨ c.toNat = 2405 ∨ c.toNat = 46 ∨ c.toNat = 33 ∨ c.toNat = 63)

/-- The quote recognition of lines 32-34: ASCII `"` (34) and `'` (39), Unicode
left/right double quotes (8220/8221) and left/right single quotes (8216/8217). -/
def isQuoteChar (c : Char) : Bool :=
  decide (c.toNat = 34 ∨ c.toNat = 39 ∨ c.toNat = 8220 ∨ c.toNat = 8221 ∨
    c.toNat = 8216 ∨ c.toNat = 8217)

/-- The closing-quote condition of lines 40-44: the character equals the
recorded opener, or is the right-curl counterpart of a Unicode left-curl
opener, or is a Unicode curly quote closing an ASCII opener of the same kind.
Character equality is expressed through code points (`Char` is determined by
its code point). -/
def isCloser (q c : Char) : Bool :=
  decide (c.toNat = q.toNat ∨
    (q.toNat = 8220 ∧ c.toNat = 8221) ∨
    (q.toNat = 8216 ∧ c.toNat = 8217) ∨
    (q.toNat = 34 ∧ (c.toNat = 8220 ∨ c.toNat = 8221)) ∨
    (q.toNat = 39 ∧ (c.toNat = 8216 ∨ c.toNat = 8217)))

/-- JS `String.prototype.trim`: drop the `isWs` characters from both ends. -/
def trimL (l : List Char) : List Char :=
  ((l.dropWhile isWs).reverse.dropWhile isWs).reverse

/-- `/[\p{L}ऀ-ॿ]/u.test(s)`: some character is letter-class. -/
def hasLetter (l : List Char) : Bool :=
  l.any isLetterClass

/-- `s.replace(/\s+/g, ' ')`: each maximal run of whitespace becomes one space. -/
def collapseWs : List Char → List Char
  | [] => []
  | [c] => if isWs c = true then [' '] else [c]
  | c :: d :: rest =>
    if isWs c = true then
      if isWs d = true then collapseWs (d :: rest)
      else ' ' :: collapseWs (d :: rest)
    else c :: collapseWs (d :: rest)

/-- Line 74's per-sentence normalization `s.replace(/\s+/g, ' ').trim()`. -/
def sanitize (l : List Char) : List Char :=
  trimL (collapseWs l)

/-- `text.replace(/\r\n/g, '\n')` of line 13 (global, left-to-right,
scanning resumes after each replaced pair). -/
def collapseCRLF : List Char → List Char
  | [] => []
  | [c] => [c]
  | c :: d :: rest =>
    if c = '\r' ∧ d = '\n' then '\n' :: collapseCRLF rest
    else c :: collapseCRLF (d :: rest)

/-- `text.replace(/\n+/g, '। ')` of line 15: every maximal run of line feeds
becomes the danda-space pair. -/
def replaceNewlineRuns : List Char → List Char
  | [] => []
  | [c] => if c = '\n' then ['।', ' '] else [c]
  | c :: d :: rest =>
    if c = '\n' then
      if d = '\n' then replaceNewlineRuns (d :: rest)
      else '।' :: ' ' :: replaceNewlineRuns (d :: rest)
    else c :: replaceNewlineRuns (d :: rest)

/-- The normalizer, lines 13-15. -/
def normalizeText (text : List Char) : List Char :=
  replaceNewlineRuns (collapseCRLF text)

/-- Scanner state of lines 19-22: accepted sentences, current fragment,
quotation flag and recorded opening quote character. -/
structure ScanState where
  sentences : List (List Char)
  current : List Char
  inQuote : Bool
  quoteChar : Option Char
deriving Repr, DecidableEq

/-- The quote branch of lines 36-49: opening records the character, closing
requires `isCloser`; the quote character is appended to the fragment either
way.  (The `none` fallback is unreachable from the initial state: the source
keeps `quoteChar` non-null whenever `inQuote` holds.) -/
def quoteUpdate (st : ScanState) (c : Char) : ScanState :=
  if st.inQuote = false then
    { st with inQuote := true, quoteChar := some c, current := st.current ++ [c] }
  else
    match st.quoteChar with
    | some q =>
      if isCloser q c = true then
        { st with inQuote := false, quoteChar := none, current := st.current ++ [c] }
      else
        { st with current := st.current ++ [c] }
    | none => { st with current := st.current ++ [c] }

/-- Line 54's lookahead `i + 1 >= text.length || /\s/.test(text[i + 1])`. -/
def boundaryNext : List Char → Bool
  | [] => true
  | d :: _ => isWs d

/-- The character loop of lines 24-66.  A quote character updates the quote
state; a terminator outside quotes with whitespace (or end of input) next
closes the fragment, which is kept only when its trim is non-empty and
letter-bearing; every other character is appended to the fragment. -/
def scanAux : ScanState → List Char → ScanState
  | st, [] => st
  | st, c :: rest =>
    if isQuoteChar c = true then
      scanAux (quoteUpdate st c) rest
    else if isTerminator c = true ∧ st.inQuote = false then
      if boundaryNext rest = true then
        if trimL (st.current ++ [c]) ≠ [] ∧ hasLetter (trimL (st.current ++ [c])) = true then
          scanAux { st with sentences := st.sentences ++ [trimL (st.current ++ [c])],
                            current := [] } rest
        else
          scanAux { st with current := [] } rest
      else
        scanAux { st with current := st.current ++ [c] } rest
    else
      scanAux { st with current := st.current ++ [c] } rest

/-- The scanner's initial state. -/
def initState : ScanState :=
  { sentences := [], current := [], inQuote := false, quoteChar := none }

/-- Lines 68-71: flush the trailing fragment when letter-bearing. -/
def flushFinal (st : ScanState) : List (List Char) :=
  if trimL st.current ≠ [] ∧ hasLetter (trimL st.current) = true then
    st.sentences ++ [trimL st.current]
  else st.sentences

/-- `splitIntoSentences` of auto-setup-on-deploy.js, lines 11-75, over code
point sequences: normalize, scan, flush, then per-sentence whitespace
normalization and the final non-empty filter of line 74. -/
def splitIntoSentencesCore (text : List Char) : List (List Char) :=
  ((flushFinal (scanAux initState (normalizeText text))).map sanitize).filter
    (fun s => decide (0 < s.length))

/-- `splitIntoSentences` on strings. -/
def splitIntoSentences (text : String) : List String :=
  (splitIntoSentencesCore text.toList).map String.mk

/-- The spec's exposed operation `segment` is this same function; the name
`segment` itself is taken by Mathlib, so the source's name is used throughout. -/
def segmentText (text : String) : List String :=
  splitIntoSentences text

/-- JS `content.split('\n')` of line 145: split at every line feed. -/
def splitNL : List Char → List (List Char)
  | [] => [[]]
  | c :: rest =>
    if c = '\n' then [] :: splitNL rest
    else
      match splitNL rest with
      | [] => [[c]]
      | l :: ls => (c :: l) :: ls

/-- JS `lines.join('\n')` of line 153. -/
def joinNL : List (List Char) → List Char
  | [] => []
  | [l] => l
  | l :: ls => l ++ '\n' :: joinNL ls

/-- Line 145 of auto-setup-on-deploy.js (identical in the second deployment
script): `storyContent.split('\n').map(l => l.trim()).filter(l => l.length > 0)`. -/
def importLines (content : List Char) : List (List Char) :=
  ((splitNL content).map trimL).filter (fun l => decide (0 < l.length))

/-- Line 152: `const title = lines[0]`. -/
def autoSetupTitle (content : List Char) : List Char :=
  (importLines content).headD []

/-- Line 153: `const allContent = lines.join('\n')`, the text that
auto-setup-on-deploy.js passes to `splitIntoSentences` at line 156. -/
def autoSetupSegDoc (content : List Char) : List Char :=
  joinNL (importLines content)

/-- Lines 153-156: the sentences auto-setup-on-deploy.js imports for a story. -/
def autoSetupSentences (content : List Char) : List (List Char) :=
  splitIntoSentencesCore (autoSetupSegDoc content)

/-- The second deployment script's import (src/unnamed/part_003, lines 71-72):
`const sentences = lines.slice(1)` — one row per line after the title. -/
def part003Sentences (content : List Char) : List (List Char) :=
  (importLines content).drop 1

/-- Spec-side transformation for the normalization-equivalence property:
the input text with each line feed replaced by the two characters `"। "`. -/
def replaceEachNL : List Char → List Char
  | [] => []
  | c :: rest =>
    if c = '\n' then '।' :: ' ' :: replaceEachNL rest
    else c :: replaceEachNL rest

/-- No two adjacent line feeds: the formalization of a text whose sentences are
separated by single line breaks. -/
def noAdjacentNL : List Char → Bool
  | [] => true
  | [_] => true
  | c :: d :: rest =>
    if c = '\n' ∧ d = '\n' then false else noAdjacentNL (d :: rest)

/-! ### Basic character-class facts -/

lemma terminator_not_quote {c : Char} (h : isTerminator c = true) :
    isQuoteChar c = false := by
  simp only [isTerminator, decide_eq_true_eq] at h
  simp only [isQuoteChar, decide_eq_false_iff_not]
  omega

lemma letter_not_ws {c : Char} (h : isLetterClass c = true) : isWs c = false := by
  simp only [isLetterClass, decide_eq_true_eq] at h
  simp only [isWs, decide_eq_false_iff_not]
  omega

lemma hasLetter_iff {l : List Char} :
    hasLetter l = true ↔ ∃ c ∈ l, isLetterClass c = true := by
  simp [hasLetter, List.any_eq_true]

lemma mem_dropWhile_ws {c : Char} : ∀ {l : List Char}, c ∈ l.dropWhile isWs → c ∈ l
  | [], h => by simp at h
  | d :: rest, h => by
    by_cases hd : isWs d
    · rw [List.dropWhile_cons, if_pos hd] at h
      exact List.mem_cons_of_mem _ (mem_dropWhile_ws h)
    · rwa [List.dropWhile_cons, if_neg hd] at h

lemma mem_trimL {c : Char} {l : List Char} (h : c ∈ trimL l) : c ∈ l := by
  unfold trimL at h
  rw [List.mem_reverse] at h
  have h1 := mem_dropWhile_ws h
  rw [List.mem_reverse] at h1
  exact mem_dropWhile_ws h1

lemma hasLetter_trimL {l : List Char} (h : hasLetter (trimL l) = true) :
    hasLetter l = true := by
  rcases hasLetter_iff.mp h with ⟨c, hc, hcl⟩
  exact hasLetter_iff.mpr ⟨c, mem_trimL hc, hcl⟩

lemma hasLetter_append_singleton {l : List Char} {c : Char}
    (hl : hasLetter l = false) (hc : isLetterClass c = false) :
    hasLetter (l ++ [c]) = false := by
  simp [hasLetter, List.any_append] at hl hc ⊢
  exact ⟨hl, hc⟩

/-! ### Quote-update facts -/

lemma quoteUpdate_sentences (st : ScanState) (c : Char) :
    (quoteUpdate st c).sentences = st.sentences := by
  unfold quoteUpdate
  split
  · rfl
  · cases h : st.quoteChar with
    | none => rfl
    | some q => dsimp only; split <;> rfl

lemma quoteUpdate_current (st : ScanState) (c : Char) :
    (quoteUpdate st c).current = st.current ++ [c] := by
  unfold quoteUpdate
  split
  · rfl
  · cases h : st.quoteChar with
    | none => rfl
    | some q => dsimp only; split <;> rfl

/-! ### Scanner invariants -/

lemma scanAux_letter : ∀ (l : List Char) (st : ScanState),
    (∀ s ∈ st.sentences, hasLetter s = true) →
    ∀ s ∈ (scanAux st l).sentences, hasLetter s = true
  | [], _, h => h
  | c :: rest, st, h => by
    rw [scanAux]
    split
    · refine scanAux_letter rest _ ?_
      rw [quoteUpdate_sentences]
      exact h
    · split
      · split
        · split
          · rename_i hguard
            refine scanAux_letter rest _ ?_
            intro s hs
            rcases List.mem_append.mp hs with hs | hs
            · exact h s hs
            · rcases List.mem_singleton.mp hs with rfl
              exact hguard.2
          · exact scanAux_letter rest _ h
        · exact scanAux_letter rest _ h
      · exact scanAux_letter rest _ h

lemma scanAux_no_letter : ∀ (l : List Char) (st : ScanState),
    st.sentences = [] → hasLetter st.current = false →
    (∀ c ∈ l, isLetterClass c = false) →
    (scanAux st l).sentences = [] ∧ hasLetter (scanAux st l).current = false
  | [], _, hs, hc, _ => ⟨hs, hc⟩
  | c :: rest, st, hs, hc, hl => by
    have hcl : isLetterClass c = false := hl c (List.mem_cons_self _ _)
    have hrest : ∀ x ∈ rest, isLetterClass x = false :=
      fun x hx => hl x (List.mem_cons_of_mem _ hx)
    have hcc : hasLetter (st.current ++ [c]) = false :=
      hasLetter_append_singleton hc hcl
    rw [scanAux]
    split
    · refine scanAux_no_letter rest _ ?_ ?_ hrest
      · rw [quoteUpdate_sentences]; exact hs
      · rw [quoteUpdate_current]; exact hcc
    · split
      · split
        · split
          · rename_i hguard
            exact absurd (hasLetter_trimL hguard.2) (by simp [hcc])
          · exact scanAux_no_letter rest _ hs (by simp [hasLetter]) hrest
        · exact scanAux_no_letter rest _ hs hcc hrest
      · exact scanAux_no_letter rest _ hs hcc hrest

lemma core_letter (t : List Char) :
    ∀ s ∈ flushFinal (scanAux initState t), hasLetter s = true := by
  intro s hs
  have base := scanAux_letter t initState (by intro s hs; simp [initState] at hs)
  unfold flushFinal at hs
  split at hs
  · rename_i hguard
    rcases List.mem_append.mp hs with hs | hs
    · exact base s hs
    · rcases List.mem_singleton.mp hs with rfl
      exact hguard.2
  · exact base s hs

/-! ### Sanitizer facts: whitespace normalization strips nothing else -/

lemma dropWhile_filter_nonws : ∀ l : List Char,
    (l.dropWhile isWs).filter (fun c => !isWs c) = l.filter (fun c => !isWs c)
  | [] => rfl
  | c :: rest => by
    by_cases h : isWs c
    · rw [List.dropWhile_cons, if_pos h, dropWhile_filter_nonws rest,
        List.filter_cons_of_neg (by simp [h])]
    · rw [List.dropWhile_cons, if_neg h]

lemma collapseWs_filter : ∀ l : List Char,
    (collapseWs l).filter (fun c => !isWs c) = l.filter (fun c => !isWs c)
  | [] => rfl
  | [c] => by
    have hsp : isWs ' ' = true := by decide
    by_cases h : isWs c
    · rw [collapseWs, if_pos h]
      simp [List.filter_cons, hsp, h]
    · rw [collapseWs, if_neg h]
  | c :: d :: rest => by
    have hsp : isWs ' ' = true := by decide
    by_cases hc : isWs c
    · by_cases hd : isWs d
      · rw [collapseWs, if_pos hc, if_pos hd]
        simp [List.filter_cons, hc, collapseWs_filter (d :: rest)]
      · rw [collapseWs, if_pos hc, if_neg hd]
        simp [List.filter_cons, hsp, hc, collapseWs_filter (d :: rest)]
    · rw [collapseWs, if_neg hc]
      simp [List.filter_cons, hc, collapseWs_filter (d :: rest)]

lemma trimL_filter_nonws (l : List Char) :
    (trimL l).filter (fun c => !isWs c) = l.filter (fun c => !isWs c) := by
  unfold trimL
  rw [List.filter_reverse, dropWhile_filter_nonws, List.filter_reverse,
    List.reverse_reverse, dropWhile_filter_nonws]

lemma sanitize_filter_nonws (l : List Char) :
    (sanitize l).filter (fun c => !isWs c) = l.filter (fun c => !isWs c) := by
  unfold sanitize
  rw [trimL_filter_nonws, collapseWs_filter]

lemma hasLetter_sanitize {l : List Char} (h : hasLetter l = true) :
    hasLetter (sanitize l) = true := by
  rcases hasLetter_iff.mp h with ⟨c, hc, hcl⟩
  have hmem : c ∈ l.filter (fun c => !isWs c) :=
    List.mem_filter.mpr ⟨hc, by simp [letter_not_ws hcl]⟩
  rw [← sanitize_filter_nonws] at hmem
  exact hasLetter_iff.mpr ⟨c, (List.mem_filter.mp hmem).1, hcl⟩

/-! ### Normalizer facts -/

lemma collapseCRLF_id_of_no_cr : ∀ l : List Char, '\r' ∉ l → collapseCRLF l = l
  | [], _ => rfl
  | [_], _ => rfl
  | c :: d :: rest, h => by
    have hc : c ≠ '\r' := fun hc => h (hc ▸ List.mem_cons_self _ _)
    have h' : '\r' ∉ d :: rest := fun hm => h (List.mem_cons_of_mem _ hm)
    rw [collapseCRLF, if_neg (fun hp => hc hp.1),
      collapseCRLF_id_of_no_cr (d :: rest) h']

lemma collapseCRLF_id_of_no_nl : ∀ l : List Char, '\n' ∉ l → collapseCRLF l = l
  | [], _ => rfl
  | [_], _ => rfl
  | c :: d :: rest, h => by
    have hd : d ≠ '\n' := fun hd =>
      h (hd ▸ List.mem_cons_of_mem _ (List.mem_cons_self _ _))
    have h' : '\n' ∉ d :: rest := fun hm => h (List.mem_cons_of_mem _ hm)
    rw [collapseCRLF, if_neg (fun hp => hd hp.2),
      collapseCRLF_id_of_no_nl (d :: rest) h']

lemma replaceNewlineRuns_id_of_no_nl : ∀ l : List Char,
    '\n' ∉ l → replaceNewlineRuns l = l
  | [], _ => rfl
  | [c], h => by
    have hc : c ≠ '\n' := fun hc => h (hc ▸ List.mem_cons_self _ _)
    rw [replaceNewlineRuns, if_neg hc]
  | c :: d :: rest, h => by
    have hc : c ≠ '\n' := fun hc => h (hc ▸ List.mem_cons_self _ _)
    have h' : '\n' ∉ d :: rest := fun hm => h (List.mem_cons_of_mem _ hm)
    rw [replaceNewlineRuns, if_neg hc,
      replaceNewlineRuns_id_of_no_nl (d :: rest) h']

lemma replaceEachNL_no_nl : ∀ l : List Char, '\n' ∉ replaceEachNL l
  | [] => by simp [replaceEachNL]
  | c :: rest => by
    by_cases h : c = '\n'
    · rw [replaceEachNL, if_pos h]
      simp only [List.mem_cons, not_or]
      exact ⟨by decide, by decide, replaceEachNL_no_nl rest⟩
    · rw [replaceEachNL, if_neg h]
      simp only [List.mem_cons, not_or]
      exact ⟨fun he => h he.symm, replaceEachNL_no_nl rest⟩

lemma replaceEachNL_no_cr : ∀ l : List Char, '\r' ∉ l → '\r' ∉ replaceEachNL l
  | [], _ => by simp [replaceEachNL]
  | c :: rest, h => by
    have hc : c ≠ '\r' := fun hc => h (hc ▸ List.mem_cons_self _ _)
    have h' : '\r' ∉ rest := fun hm => h (List.mem_cons_of_mem _ hm)
    by_cases hn : c = '\n'
    · rw [replaceEachNL, if_pos hn]
      simp only [List.mem_cons, not_or]
      exact ⟨by decide, by decide, replaceEachNL_no_cr rest h'⟩
    · rw [replaceEachNL, if_neg hn]
      simp only [List.mem_cons, not_or]
      exact ⟨fun he => hc he.symm, replaceEachNL_no_cr rest h'⟩

lemma replaceNewlineRuns_eq_replaceEachNL : ∀ l : List Char,
    noAdjacentNL l = true → replaceNewlineRuns l = replaceEachNL l
  | [], _ => rfl
  | [c], _ => by
    by_cases h : c = '\n'
    · rw [replaceNewlineRuns, if_pos h, replaceEachNL, if_pos h, replaceEachNL]
    · rw [replaceNewlineRuns, if_neg h, replaceEachNL, if_neg h, replaceEachNL]
  | c :: d :: rest, h => by
    rw [noAdjacentNL] at h
    by_cases hc : c = '\n'
    · have hd : ¬ d = '\n' := by
        intro hd
        rw [if_pos ⟨hc, hd⟩] at h
        exact Bool.false_ne_true h
      have h' : noAdjacentNL (d :: rest) = true := by
        rwa [if_neg (fun hp => hd hp.2)] at h
      rw [replaceNewlineRuns, if_pos hc, if_neg hd, replaceEachNL, if_pos hc,
        replaceNewlineRuns_eq_replaceEachNL (d :: rest) h']
    · have h' : noAdjacentNL (d :: rest) = true := by
        rwa [if_neg (fun hp => hc hp.1)] at h
      rw [replaceNewlineRuns, if_neg hc, replaceEachNL, if_neg hc,
        replaceNewlineRuns_eq_replaceEachNL (d :: rest) h']

lemma normalizeText_eq_replaceEachNL (T : List Char) (h1 : '\r' ∉ T)
    (h2 : noAdjacentNL T = true) : normalizeText T = replaceEachNL T := by
  unfold normalizeText
  rw [collapseCRLF_id_of_no_cr T h1, replaceNewlineRuns_eq_replaceEachNL T h2]

lemma normalizeText_replaceEachNL (T : List Char) (h1 : '\r' ∉ T) :
    normalizeText (replaceEachNL T) = replaceEachNL T := by
  unfold normalizeText
  rw [collapseCRLF_id_of_no_cr _ (replaceEachNL_no_cr T h1),
    replaceNewlineRuns_id_of_no_nl _ (replaceEachNL_no_nl T)]

lemma rnr_cons_nl : ∀ R : List Char,
    replaceNewlineRuns ('\n' :: R)
      = '।' :: ' ' :: replaceNewlineRuns (R.dropWhile (fun c => decide (c = '\n')))
  | [] => by rw [replaceNewlineRuns, if_pos rfl]; rfl
  | d :: R' => by
    by_cases hd : d = '\n'
    · subst hd
      rw [replaceNewlineRuns, if_pos rfl, if_pos rfl, rnr_cons_nl R',
        List.dropWhile_cons, if_pos (by decide)]
    · rw [replaceNewlineRuns, if_pos rfl, if_neg hd,
        List.dropWhile_cons, if_neg (by simpa using hd)]

lemma rnr_append : ∀ (L R : List Char), '\n' ∉ L →
    replaceNewlineRuns (L ++ '\n' :: R)
      = L ++ '।' :: ' ' :: replaceNewlineRuns (R.dropWhile (fun c => decide (c = '\n')))
  | [], R, _ => rnr_cons_nl R
  | c :: L', R, h => by
    have hc : ¬ c = '\n' := fun hc => h (hc ▸ List.mem_cons_self _ _)
    have h' : '\n' ∉ L' := fun hm => h (List.mem_cons_of_mem _ hm)
    rcases L' with _ | ⟨e, L''⟩
    · show replaceNewlineRuns (c :: '\n' :: R) = _
      rw [replaceNewlineRuns, if_neg hc, rnr_cons_nl R]
      rfl
    · show replaceNewlineRuns (c :: (e :: L'' ++ '\n' :: R)) = _
      have : e :: L'' ++ '\n' :: R = e :: (L'' ++ '\n' :: R) := rfl
      rw [this, replaceNewlineRuns, if_neg hc, ← this,
        rnr_append (e :: L'') R h']
      rfl

/-! ### Claim theorems -/

/-- C1 (counterexample): the claim says a letter-free scanner fragment is
merged into a neighbor so that no fragment is lost; on `"अ. ! ब."` the
scanner's middle fragment `"!"` is simply dropped — the result is
`["अ.", "ब."]` and no output sentence contains the `!` at all, rather than
the claimed `["अ. !", "ब."]`. -/
theorem C1_counterexample :
    splitIntoSentences "अ. ! ब." = ["अ.", "ब."]
    ∧ (splitIntoSentences "अ. ! ब.").all (fun s => decide ('!' ∉ s.toList)) = true :=
  ⟨by decide, by decide⟩

/-- C1 (amended): there is no punctuation merger — when the scanner reaches a
boundary and the trimmed fragment has no letter-class character, the fragment
is discarded outright (the state continues with an empty fragment and an
unchanged sentence list). -/
theorem C1_discard_strays (st : ScanState) (c : Char) (rest : List Char)
    (ht : isTerminator c = true) (hq : st.inQuote = false)
    (hb : boundaryNext rest = true)
    (hl : hasLetter (trimL (st.current ++ [c])) = false) :
    scanAux st (c :: rest) = scanAux { st with current := [] } rest := by
  rw [scanAux, if_neg (by simp [terminator_not_quote ht]), if_pos ⟨ht, hq⟩,
    if_pos hb, if_neg (by rintro ⟨-, h2⟩; rw [hl] at h2; exact Bool.false_ne_true h2)]

/-- C1 (witness): the amended discard step at a concrete state and input. -/
theorem C1_witness :
    scanAux { sentences := [], current := [' '], inQuote := false, quoteChar := none }
        ('!' :: [' '])
      = scanAux { sentences := [], current := [], inQuote := false, quoteChar := none }
          [' '] :=
  C1_discard_strays ⟨[], [' '], false, none⟩ '!' [' '] (by decide) rfl (by decide)
    (by decide)

/-- C2: while the scanner is inside a quotation, a terminator character is
treated as a regular character (appended to the fragment, no boundary, no
emission); in particular the spec's quoted example stays one sentence. -/
theorem C2_quote_containment :
    (∀ (st : ScanState) (c : Char) (l : List Char),
        st.inQuote = true → isTerminator c = true →
        scanAux st (c :: l) = scanAux { st with current := st.current ++ [c] } l)
    ∧ splitIntoSentences "तो म्हणाला, \"हे वाक्य आहे.\" पुढे गेला."
        = ["तो म्हणाला, \"हे वाक्य आहे.\" पुढे गेला."] := by
  constructor
  · intro st c l hin ht
    rw [scanAux, if_neg (by simp [terminator_not_quote ht]),
      if_neg (by rintro ⟨-, h2⟩; rw [hin] at h2; simp at h2)]
  · decide

/-- C2 (witness): the in-quote terminator step at a concrete state. -/
theorem C2_witness :
    scanAux ⟨[], [], true, some '"'⟩ ['.']
      = scanAux ⟨[], [] ++ ['.'], true, some '"'⟩ [] :=
  C2_quote_containment.1 ⟨[], [], true, some '"'⟩ '.' [] rfl (by decide)

/-- C3 (counterexample): the auto-setup caller does NOT exclude the title
line: for a two-line story the title line is segmented and yields the first
emitted sentence (the title followed by the synthetic danda). -/
theorem C3_counterexample :
    autoSetupTitle ("माझी गोष्ट\nहा वाक्य आहे.".toList) = "माझी गोष्ट".toList
    ∧ autoSetupSentences ("माझी गोष्ट\nहा वाक्य आहे.".toList)
        = ["माझी गोष्ट।".toList, "हा वाक्य आहे.".toList] :=
  ⟨by decide, by decide⟩

/-- C3 (amended): in auto-setup-on-deploy.js the text passed to segmentation
is the join of ALL non-empty trimmed lines, so the title line is its leading
segment; only the part_003 variant drops the title (its sentence rows are
exactly the lines after the first). -/
theorem C3_title_included (content t : List Char) (rest : List (List Char))
    (h : importLines content = t :: rest) :
    (∃ suffix, autoSetupSegDoc content = t ++ suffix)
    ∧ autoSetupTitle content = t ∧ part003Sentences content = rest := by
  refine ⟨?_, ?_, ?_⟩
  · unfold autoSetupSegDoc
    rw [h]
    rcases rest with _ | ⟨r, rs⟩
    · exact ⟨[], by rw [joinNL, List.append_nil]⟩
    · refine ⟨'\n' :: joinNL (r :: rs), ?_⟩
      rw [joinNL]
      simp
  · unfold autoSetupTitle
    rw [h]
    rfl
  · unfold part003Sentences
    rw [h]
    rfl

/-- C3 (witness): the amended statement at a concrete two-line story. -/
theorem C3_witness :
    ∃ suffix, autoSetupSegDoc ("शीर्षक\nवाक्य".toList) = "शीर्षक".toList ++ suffix :=
  (C3_title_included ("शीर्षक\nवाक्य".toList) ("शीर्षक".toList) ["वाक्य".toList]
    (by decide)).1

/-- C4 (counterexample): the claim says the sanitizer strips wrapping
quotes/punctuation from both ends; the code's sanitizer is only whitespace
normalization, so a sentence wrapped in ASCII quotes is returned with the
quotes (and trailing period) intact. -/
theorem C4_counterexample :
    splitIntoSentences "\"हो.\"" = ["\"हो.\""] := by decide

/-- C4 (amended): the sanitizer of line 74 trims and collapses whitespace
only — it preserves the subsequence of non-whitespace characters exactly, so
no punctuation or quote character is ever stripped; concretely it turns
`"  \"अ   ब.\"  "` into `"\"अ ब.\""`, keeping the wrapping quotes. -/
theorem C4_ws_only_sanitizer :
    (∀ s : List Char,
        (sanitize s).filter (fun c => !isWs c) = s.filter (fun c => !isWs c))
    ∧ sanitize ("  \"अ   ब.\"  ".toList) = "\"अ ब.\"".toList :=
  ⟨sanitize_filter_nonws, by decide⟩

/-- C5 (counterexample): an ASCII double quote is NOT accepted as a closer
for a quotation opened by a Unicode left curly double quote — `isCloser` is
false, and consequently a text whose curly quotation is "closed" by an ASCII
quote stays inside the quotation to the end and is returned as a single
sentence instead of being split at the later terminators. -/
theorem C5_counterexample :
    isCloser '“' '"' = false
    ∧ splitIntoSentences "“अ.\" ब. क." = ["“अ.\" ब. क."] :=
  ⟨by decide, by decide⟩

/-- C5 (amended): the closer relation of lines 40-44 is exactly: a curly
opener is closed by the same character or its right-curl counterpart, while
an ASCII opener is closed by the same ASCII character or by the curly quotes
of the corresponding kind — ASCII quotes never close curly-opened
quotations. -/
theorem C5_closer_classes : ∀ c : Char,
    isCloser '“' c = decide (c.toNat = 8220 ∨ c.toNat = 8221)
    ∧ isCloser '‘' c = decide (c.toNat = 8216 ∨ c.toNat = 8217)
    ∧ isCloser '"' c = decide (c.toNat = 34 ∨ c.toNat = 8220 ∨ c.toNat = 8221)
    ∧ isCloser '\'' c = decide (c.toNat = 39 ∨ c.toNat = 8216 ∨ c.toNat = 8217) := by
  intro c
  refine ⟨?_, ?_, ?_, ?_⟩
  · unfold isCloser
    rw [decide_eq_decide, show ('“'.toNat) = 8220 from by decide]
    omega
  · unfold isCloser
    rw [decide_eq_decide, show ('‘'.toNat) = 8216 from by decide]
    omega
  · unfold isCloser
    rw [decide_eq_decide, show ('"'.toNat) = 34 from by decide]
    omega
  · unfold isCloser
    rw [decide_eq_decide, show ('\''.toNat) = 39 from by decide]
    omega

/-- C6: on text whose line breaks are plain line feeds with no blank lines,
segmentation is unchanged when each line feed is replaced by the two
characters danda-space. -/
theorem C6_normalization_equivalence (T : String)
    (h1 : '\r' ∉ T.toList) (h2 : noAdjacentNL T.toList = true) :
    splitIntoSentences T = splitIntoSentences (String.mk (replaceEachNL T.toList)) := by
  unfold splitIntoSentences splitIntoSentencesCore
  have ht : (String.mk (replaceEachNL T.toList)).toList = replaceEachNL T.toList := rfl
  rw [ht, normalizeText_eq_replaceEachNL T.toList h1 h2,
    normalizeText_replaceEachNL T.toList h1]

/-- C6 (witness): the equivalence at a concrete two-line text. -/
theorem C6_witness :
    splitIntoSentences "अ\nब"
      = splitIntoSentences (String.mk (replaceEachNL "अ\nब".toList)) :=
  C6_normalization_equivalence "अ\nब" (by decide) (by decide)

/-- C7: the decimal guard — the period of `3.5` is followed by a digit, not
whitespace, so no boundary is created and the whole text is one sentence. -/
theorem C7_decimal_guard :
    splitIntoSentences "किंमत 3.5 रुपये आहे." = ["किंमत 3.5 रुपये आहे."] := by decide

/-- C8: every sentence returned by `splitIntoSentences` contains at least one
letter-class character (Unicode letter or Devanagari-block code point). -/
theorem C8_letter_invariant (T s : String) (h : s ∈ splitIntoSentences T) :
    ∃ c, c ∈ s.toList ∧ isLetterClass c = true := by
  unfold splitIntoSentences at h
  rcases List.mem_map.mp h with ⟨l, hl, rfl⟩
  unfold splitIntoSentencesCore at hl
  rcases List.mem_filter.mp hl with ⟨hl2, -⟩
  rcases List.mem_map.mp hl2 with ⟨s0, hs0, rfl⟩
  have h1 : hasLetter s0 = true := core_letter _ s0 hs0
  have h2 : hasLetter (sanitize s0) = true := hasLetter_sanitize h1
  rcases hasLetter_iff.mp h2 with ⟨c, hc, hcl⟩
  exact ⟨c, hc, hcl⟩

/-- C8 (witness): the invariant at a concrete input and returned sentence. -/
theorem C8_witness : ∃ c, c ∈ "अ".toList ∧ isLetterClass c = true :=
  C8_letter_invariant "अ" "अ" (by decide)

/-- C9 (counterexample): the claim says input with no letter-class character
yields the empty sequence; but the input `"\n"` (no letter-class character)
is normalized to `"। "` and the danda — being inside the Devanagari block —
passes the letter test, so the code returns `["।"]`, not `[]`. -/
theorem C9_counterexample :
    ("\n".toList.all fun c => !isLetterClass c) = true
    ∧ splitIntoSentences "\n" = ["।"] :=
  ⟨by decide, by decide⟩

/-- C9 (amended): for input with no letter-class character AND no line feed
(the normalizer inserts letter-class dandas for line feeds), segmentation
returns the empty list; in particular empty input and ASCII-punctuation-only
input yield `[]`, and this is the only signal — the function is total. -/
theorem C9_no_letter_empty (T : String)
    (h : ∀ c ∈ T.toList, isLetterClass c = false ∧ c ≠ '\n') :
    splitIntoSentences T = [] := by
  have hnl : '\n' ∉ T.toList := fun hm => (h _ hm).2 rfl
  have hlet : ∀ c ∈ T.toList, isLetterClass c = false := fun c hc => (h c hc).1
  have hnorm : normalizeText T.toList = T.toList := by
    unfold normalizeText
    rw [collapseCRLF_id_of_no_nl _ hnl, replaceNewlineRuns_id_of_no_nl _ hnl]
  obtain ⟨h1, h2⟩ := scanAux_no_letter T.toList initState rfl (by decide) hlet
  have hneg : ¬(trimL (scanAux initState T.toList).current ≠ [] ∧
      hasLetter (trimL (scanAux initState T.toList).current) = true) := by
    rintro ⟨-, hl2⟩
    have h3 := hasLetter_trimL hl2
    rw [h2] at h3
    simp at h3
  unfold splitIntoSentences splitIntoSentencesCore flushFinal
  rw [hnorm, if_neg hneg, h1]
  rfl

/-- C9 (witness): ASCII-punctuation-only input yields the empty list. -/
theorem C9_witness : splitIntoSentences "!?." = [] :=
  C9_no_letter_empty "!?." (by decide)

/-- C10 (counterexample): the claim says the emitted sentence for every line
followed by a line break ends in the synthetic danda; when whitespace
separates the line's terminator from the break, the sentence for that line
is emitted at the terminator WITHOUT the danda, and the synthetic danda
becomes a separate stray `"।"` sentence. -/
theorem C10_counterexample :
    splitIntoSentences "अ. \nब" = ["अ.", "।", "ब"] := by decide

/-- C10 (amended): the normalizer inserts `"। "` after every line (so the
scanner sees the line's content directly followed by a danda), and when the
terminator immediately precedes the break the emitted sentence ends in
terminator-then-danda — `segment "अ.\nब" = ["अ.।", "ब"]` — while a line
without its own terminator gets the danda alone: `segment "अ\nब" = ["अ।", "ब"]`. -/
theorem C10_danda_insertion :
    (∀ (L R : List Char), '\n' ∉ L →
        replaceNewlineRuns (L ++ '\n' :: R)
          = L ++ '।' :: ' ' :: replaceNewlineRuns
              (R.dropWhile (fun c => decide (c = '\n'))))
    ∧ splitIntoSentences "अ.\nब" = ["अ.।", "ब"]
    ∧ splitIntoSentences "अ\nब" = ["अ।", "ब"] :=
  ⟨rnr_append, by decide, by decide⟩

/-- C10 (witness): the danda insertion at a concrete line and remainder. -/
theorem C10_witness :
    replaceNewlineRuns (['क'] ++ '\n' :: ['ख'])
      = ['क'] ++ '।' :: ' ' :: replaceNewlineRuns
          (List.dropWhile (fun c => decide (c = '\n')) ['ख']) :=
  C10_danda_insertion.1 ['क'] ['ख'] (by decide)
